import Mathlib

/-!
Verification development for the btc_alt_strategy_rebalancer repository.

The repository has three Python source files:
- src/app.py: a Streamlit app whose core logic is a paginated CoinGecko
  fetch with retries (fetch_market_data, lines 10-101) followed by a
  record validation pass, and a Calculate Allocation block (lines
  164-243) that sorts, filters, truncates and weighs an altcoin basket.
- src/fetch_coingecko.py: a standalone batch variant of the same fetch
  loop (fetch_market_data, lines 9-51) that normalizes by key selection
  instead of validation.
- src/fetcher.py: a CSV snapshot script over CoinPaprika tickers.

Each definition below is a shallow embedding of a specific span of that
source; line numbers are cited in the doc comments.
-/

set_option autoImplicit false

namespace Rebalancer

/-! ## Raw records (JSON objects as seen by the Python sources)

JSON field values are treated as opaque tokens (JValue): the embedded
code never inspects a value except for presence and null-ness during
validation, so only those are modelled.  A raw record is an association
list from field name to Option JValue; an absent key is simply not in
the list and a present-but-null value is (key, none).  All consulted
accesses in the sources collapse the two cases (app.py line 80 tests
absent-or-None, line 84 likewise, fetch_coingecko.py line 49 uses
coin.get(k) which yields None for both), so rawGet returns none for
both absent and null. -/

abbrev JValue := String

abbrev RawCoin := List (String × Option JValue)

/-- Field access as performed by the sources: none when the key is
absent or its value is null (Python None). -/
def rawGet (c : RawCoin) (k : String) : Option JValue :=
  match c.lookup k with
  | none => none
  | some v => v

/-! ## Record validator (src/app.py lines 73-101) -/

/-- src/app.py line 73: the six required keys, in source order. -/
def required_keys : List String :=
  ["id", "symbol", "name", "market_cap", "market_cap_rank", "current_price"]

/-- src/app.py line 84: the required keys that are absent or null in a
raw coin record. -/
def missingKeys (c : RawCoin) : List String :=
  required_keys.filter (fun k => (rawGet c k).isNone)

/-- src/app.py line 86: the emitted record, a dict holding exactly the
six required keys with the coin's (non-null, by the guard at line 85)
values. -/
def emitCoin (c : RawCoin) : List (String × JValue) :=
  required_keys.filterMap (fun k => (rawGet c k).map (fun v => (k, v)))

/-- A skip-log entry (src/app.py lines 81 and 89 append formatted
strings; only the fact that an entry is recorded, for which record and
why, matters downstream, so entries are modelled structurally). -/
inductive SkipReason where
  | missingRank (coin : RawCoin)
  | missingFields (coin : RawCoin) (keys : List String)
deriving DecidableEq

/-- src/app.py lines 74-89: the validation loop.  Returns the processed
records (processed_coins) and the skip log (skipped_coins_log), both in
input order.  A coin whose market_cap_rank is absent or null is skipped
first (lines 80-82); otherwise a coin with any absent-or-null required
key is skipped (lines 84, 87-89); otherwise the six-key record is
emitted (lines 85-86). -/
def processCoins : List RawCoin → List (List (String × JValue)) × List SkipReason
  | [] => ([], [])
  | c :: rest =>
    let r := processCoins rest
    if (rawGet c "market_cap_rank").isNone then
      (r.1, SkipReason.missingRank c :: r.2)
    else if missingKeys c = [] then
      (emitCoin c :: r.1, r.2)
    else
      (r.1, SkipReason.missingFields c (missingKeys c) :: r.2)

/-! ## Paginated fetch loop with retries
(src/app.py lines 37-65, src/fetch_coingecko.py lines 21-39)

The network is modelled as a client function from (page, attempt) to a
response: either a transport/HTTP error (requests.RequestException /
raise_for_status) or a decoded JSON array.  The embedding additionally
returns the log of (page, attempt) requests actually issued, so that
statements about which requests happen are expressible. -/

/-- Outcome of one requests.get call for a given page and attempt. -/
inductive Resp (α : Type) where
  | err : Resp α
  | ok : List α → Resp α
deriving DecidableEq

/-- Outcome of the inner while-loop for one page. -/
inductive PageOutcome (α : Type) where
  | data : List α → PageOutcome α
  | failed : PageOutcome α
deriving DecidableEq

/-- The inner retry loop (src/app.py lines 41-65, fetch_coingecko.py
lines 24-39): while attempt < retries, issue the request; on success
break with the page data (also when the array is empty: both branches
at app.py lines 47-56 break); on error increment attempt and either
retry or, once retries are exhausted, fail the whole fetch (app.py
line 65 returns None, fetch_coingecko.py line 38 re-raises).  fuel
stands for retries - attempt, so the loop condition attempt < retries
is fuel > 0. -/
def tryPage {α : Type} (client : Nat → Nat → Resp α) (page attempt fuel : Nat) :
    PageOutcome α × List (Nat × Nat) :=
  match fuel with
  | 0 => (PageOutcome.data [], [])
  | fuel' + 1 =>
    match client page attempt with
    | Resp.ok d => (PageOutcome.data d, [(page, attempt)])
    | Resp.err =>
      match fuel' with
      | 0 => (PageOutcome.failed, [(page, attempt)])
      | _ + 1 =>
        let r := tryPage client page (attempt + 1) fuel'
        (r.1, (page, attempt) :: r.2)

/-- The outer page loop (src/app.py line 37, fetch_coingecko.py line
21): for page in range(1, pages + 1), run the retry loop, extend
all_coins with the page data and continue; on a failed page abort the
whole fetch.  Note that an empty page data simply extends all_coins by
nothing and the loop continues with the next page, exactly as the
Python break at app.py line 56 / fetch_coingecko.py line 34 only exits
the inner while loop. -/
def fetchPagesLoop {α : Type} (client : Nat → Nat → Resp α) (retries : Nat) :
    List Nat → List α → Option (List α) × List (Nat × Nat)
  | [], acc => (some acc, [])
  | p :: ps, acc =>
    let r := tryPage client p 0 retries
    match r.1 with
    | PageOutcome.failed => (none, r.2)
    | PageOutcome.data d =>
      let rest := fetchPagesLoop client retries ps (acc ++ d)
      (rest.1, r.2 ++ rest.2)

/-- The whole pagination-with-retries loop shared by src/app.py lines
37-65 and src/fetch_coingecko.py lines 21-39 (the spec calls this
component fetch_pages).  Returns the accumulated all_coins, or none
when some page exhausted its retries, together with the request log. -/
def fetch_pages {α : Type} (client : Nat → Nat → Resp α) (pages retries : Nat) :
    Option (List α) × List (Nat × Nat) :=
  fetchPagesLoop client retries (List.range' 1 pages) []

/-- src/app.py fetch_market_data (lines 10-101): the fetch loop, the
all_coins emptiness check (lines 69-71 return None), and the validation
pass (lines 73-101) whose processed_coins list is returned. -/
def fetch_market_data_app (client : Nat → Nat → Resp RawCoin) (pages retries : Nat) :
    Option (List (List (String × JValue))) :=
  match fetch_pages client pages retries with
  | (none, _) => none
  | (some all_coins, _) =>
    if all_coins = [] then none else some (processCoins all_coins).1

/-! ## Standalone batch normalization (src/fetch_coingecko.py lines 40-51) -/

/-- src/fetch_coingecko.py lines 40-47: the selected keys, in source
order (market_cap_rank before market_cap, unlike app.py). -/
def selected_keys : List String :=
  ["id", "symbol", "name", "market_cap_rank", "market_cap", "current_price"]

/-- src/fetch_coingecko.py line 49: the per-coin dict comprehension
mapping each selected key k to coin.get(k), which is None when k is
absent (and when its value is null). -/
def selectCoin (c : RawCoin) : List (String × Option JValue) :=
  selected_keys.map (fun k => (k, rawGet c k))

/-- src/fetch_coingecko.py fetch_market_data (lines 9-51): the fetch
loop followed by the key-selection comprehension at lines 48-51.  A
page that exhausts its retries re-raises the exception (line 38),
modelled as Except.error. -/
def fetch_market_data_cg (client : Nat → Nat → Resp RawCoin) (pages retries : Nat) :
    Except Unit (List (List (String × Option JValue))) :=
  match fetch_pages client pages retries with
  | (none, _) => Except.error ()
  | (some all_coins, _) => Except.ok (all_coins.map selectCoin)

/-! ## Allocation calculator (src/app.py, Calculate Allocation block)

The claims about this block quantify over cleaned record lists, i.e.
the state of the DataFrame after the numeric coercion and dropna at
src/app.py lines 182-192: every row has a numeric market_cap,
current_price and an integer market_cap_rank.  Such a row is a
CleanCoin.  DataFrame operations on it are embedded as list
operations: boolean-mask filtering is List.filter, head is List.take,
column sum is the sum of the mapped list. -/

structure CleanCoin where
  symbol : String
  name : String
  market_cap : ℚ
  market_cap_rank : ℤ
  current_price : ℚ
deriving DecidableEq, Repr

/-- Stable insertion of a coin in front of the first coin of strictly
greater rank. -/
def insertByRank (c : CleanCoin) : List CleanCoin → List CleanCoin
  | [] => [c]
  | d :: ds =>
    if c.market_cap_rank ≤ d.market_cap_rank then c :: d :: ds
    else d :: insertByRank c ds

/-- src/app.py line 195: df.sort_values(by market_cap_rank, ascending).
pandas uses the default sort kind quicksort here, which pandas
documents as not stable; the tie order among equal ranks is thus an
implementation detail of the underlying numpy sort and is not
determined by this repository's code.  This embedding uses a stable
insertion sort as a concrete stand-in; no theorem below about another
claim depends on the order of equal-rank rows. -/
def sort_values (l : List CleanCoin) : List CleanCoin :=
  l.foldr insertByRank []

/-- src/app.py lines 203-204: the excluded-token set with btc added
(the tokens are already lowercased by the parse at line 203). -/
def excludedWithBtc (excluded : List String) : List String :=
  "btc" :: excluded

/-- Python str.lower as used at src/app.py line 208 (and line 203),
character-wise lowering; written structurally recursive over the
character list so it evaluates on concrete inputs. -/
def lowerString (s : String) : String :=
  String.mk (s.data.map Char.toLower)

/-- src/app.py line 208: drop every row whose lowercased symbol is in
the excluded set, keeping the sorted order. -/
def df_filtered (records : List CleanCoin) (excluded : List String) : List CleanCoin :=
  (sort_values records).filter
    (fun r => decide (lowerString r.symbol ∉ excludedWithBtc excluded))

/-- src/app.py line 222: the first top_n rows of the filtered list. -/
def altcoin_basket (records : List CleanCoin) (excluded : List String) (top_n : Nat) :
    List CleanCoin :=
  (df_filtered records excluded).take top_n

/-- src/app.py line 234: the market_cap column sum over the basket. -/
def total_basket_market_cap (basket : List CleanCoin) : ℚ :=
  (basket.map CleanCoin.market_cap).sum

/-- src/app.py lines 239-240: Weight (%) of one row, computed as
(market_cap / total) * 100. -/
def weight_pct (total : ℚ) (r : CleanCoin) : ℚ :=
  r.market_cap / total * 100

/-- One row of the displayed basket: the coin together with its
Weight (%) and Target Allocation (USD) columns (src/app.py lines
239-243). -/
structure AllocationRow where
  coin : CleanCoin
  weightPct : ℚ
  targetUsd : ℚ
deriving DecidableEq, Repr

/-- The result of a successful Calculate Allocation run: the two
scalar targets (src/app.py lines 230-231) and the basket rows. -/
structure AllocationResult where
  targetBtc : ℚ
  targetBasket : ℚ
  rows : List AllocationRow
deriving DecidableEq, Repr

/-- src/app.py lines 194-243: the Calculate Allocation pipeline on a
cleaned record list.  Sort by rank (line 195), filter exclusions
(lines 203-208), truncate to top_n (line 222); if the basket is empty
the run stops with a warning (lines 212-215 and 224-227), modelled as
none.  Otherwise compute target_btc_usd and target_altcoin_basket_usd
(lines 230-231) and the basket market-cap total (line 234); if the
total is not positive the run stops with a warning (lines 399-404),
modelled as none; otherwise each row gets Weight (%) and Target
Allocation (USD) (lines 239-243). -/
def calculate (records : List CleanCoin) (excluded : List String) (top_n : Nat)
    (portfolio_usd btc_weight_pct basket_weight_pct : ℚ) : Option AllocationResult :=
  if altcoin_basket records excluded top_n = [] then none
  else if 0 < total_basket_market_cap (altcoin_basket records excluded top_n) then
    some
      { targetBtc := portfolio_usd * (btc_weight_pct / 100)
        targetBasket := portfolio_usd * (basket_weight_pct / 100)
        rows := (altcoin_basket records excluded top_n).map (fun r =>
          { coin := r
            weightPct :=
              weight_pct (total_basket_market_cap (altcoin_basket records excluded top_n)) r
            targetUsd :=
              weight_pct (total_basket_market_cap (altcoin_basket records excluded top_n)) r
                / 100 * (portfolio_usd * (basket_weight_pct / 100)) }) }
  else none

/-! ## CSV snapshot script (src/fetcher.py) -/

/-- One decoded CoinPaprika ticker item as consumed by src/fetcher.py
lines 27-38: rank, symbol and the USD quote's price and market cap. -/
structure Ticker where
  rank : ℤ
  symbol : String
  price : ℚ
  market_cap : ℚ
deriving DecidableEq, Repr

/-- src/fetcher.py line 12. -/
def EXCLUDE_STABLES : List String := ["USDT", "USDC", "DAI", "TUSD", "FDUSD"]

/-- One appended CSV row (src/fetcher.py lines 33-39). -/
structure Row where
  snapshot_date : String
  rank : ℤ
  symbol : String
  price_usd : ℚ
  market_cap_usd : ℚ
deriving DecidableEq, Repr

/-- src/fetcher.py lines 27-39: the loop over one response.  The first
item with rank > 50 breaks out of the loop (line 29); an item whose
symbol is in EXCLUDE_STABLES is skipped (lines 30-31); otherwise a row
is appended (lines 33-39). -/
def processTickers (day : String) : List Ticker → List Row
  | [] => []
  | t :: rest =>
    if 50 < t.rank then []
    else if t.symbol ∈ EXCLUDE_STABLES then processTickers day rest
    else
      { snapshot_date := day
        rank := t.rank
        symbol := t.symbol
        price_usd := t.price
        market_cap_usd := t.market_cap } :: processTickers day rest

/-- src/fetcher.py lines 21-40: the rows list accumulated over the
dates of the outer loop, with resp giving each date's decoded
response. -/
def allRows (days : List String) (resp : String → List Ticker) : List Row :=
  days.flatMap (fun d => processTickers d (resp d))

/-! ## Theorems -/

theorem processCoins_append (l₁ l₂ : List RawCoin) :
    processCoins (l₁ ++ l₂) =
      ((processCoins l₁).1 ++ (processCoins l₂).1,
       (processCoins l₁).2 ++ (processCoins l₂).2) := by
  induction l₁ with
  | nil => simp [processCoins]
  | cons c rest ih =>
    by_cases h1 : (rawGet c "market_cap_rank").isNone
    · simp [processCoins, h1, ih]
    · by_cases h2 : missingKeys c = [] <;> simp [processCoins, h1, h2, ih]

theorem emitCoin_keys (c : RawCoin) (h : missingKeys c = []) :
    (emitCoin c).map Prod.fst = required_keys := by
  have hall : ∀ k ∈ required_keys, (rawGet c k).isSome := by
    intro k hk
    have := List.filter_eq_nil_iff.mp h k hk
    simp only [Bool.not_eq_true, Option.isNone_eq_false_iff] at this
    exact this
  unfold emitCoin
  generalize required_keys = l at hall ⊢
  induction l with
  | nil => simp
  | cons k ks ih =>
    obtain ⟨v, hv⟩ := Option.isSome_iff_exists.mp (hall k (by simp))
    simp only [List.filterMap_cons, hv, Option.map_some', List.map_cons]
    exact congrArg (k :: ·) (ih (fun a ha => hall a (by simp [ha])))

theorem processCoins_length (coins : List RawCoin) :
    (processCoins coins).1.length + (processCoins coins).2.length = coins.length := by
  induction coins with
  | nil => simp [processCoins]
  | cons c rest ih =>
    by_cases h1 : (rawGet c "market_cap_rank").isNone
    · simp only [processCoins, h1, if_pos, List.length_cons]
      omega
    · by_cases h2 : missingKeys c = [] <;>
        simp only [processCoins, h1, h2, if_pos, if_neg, if_true, if_false,
          Bool.false_eq_true, not_false_eq_true, List.length_cons] <;> omega

theorem processCoins_mem (coins : List RawCoin) (rec : List (String × JValue))
    (hrec : rec ∈ (processCoins coins).1) :
    ∃ c ∈ coins, missingKeys c = [] ∧ rec = emitCoin c := by
  induction coins with
  | nil => simp [processCoins] at hrec
  | cons c rest ih =>
    by_cases h1 : (rawGet c "market_cap_rank").isNone
    · simp only [processCoins, h1, if_pos] at hrec
      obtain ⟨d, hd, hk, he⟩ := ih hrec
      exact ⟨d, by simp [hd], hk, he⟩
    · by_cases h2 : missingKeys c = []
      · simp only [processCoins, h1, h2, if_neg, if_pos, Bool.false_eq_true,
          not_false_eq_true, List.mem_cons, if_true] at hrec
        rcases hrec with h | h
        · exact ⟨c, by simp, h2, h⟩
        · obtain ⟨d, hd, hk, he⟩ := ih h
          exact ⟨d, by simp [hd], hk, he⟩
      · simp only [processCoins, h1, h2, if_neg, Bool.false_eq_true,
          not_false_eq_true, if_false] at hrec
        obtain ⟨d, hd, hk, he⟩ := ih hrec
        exact ⟨d, by simp [hd], hk, he⟩

/-- Claim C2: every record emitted by the validation pass of
src/app.py fetch_market_data (lines 73-101) carries exactly the six
required fields (id, symbol, name, market_cap, market_cap_rank,
current_price), each with a present, non-null value; a raw record with
any required field absent or null is dropped whole (its slot goes to
the skip log instead), so output count plus skip count equals input
count and no partially-populated record is ever emitted. -/
theorem c2_no_partial_records (coins : List RawCoin) :
    (∀ rec ∈ (processCoins coins).1, rec.map Prod.fst = required_keys) ∧
    (∀ rec ∈ (processCoins coins).1, ∀ k ∈ required_keys, ∃ v : JValue, (k, v) ∈ rec) ∧
    (processCoins coins).1.length + (processCoins coins).2.length = coins.length := by
  refine ⟨?_, ?_, processCoins_length coins⟩
  · intro rec hrec
    obtain ⟨c, _, hk, he⟩ := processCoins_mem coins rec hrec
    exact he ▸ emitCoin_keys c hk
  · intro rec hrec k hk
    obtain ⟨c, _, hmk, he⟩ := processCoins_mem coins rec hrec
    have hkeys : rec.map Prod.fst = required_keys := he ▸ emitCoin_keys c hmk
    have : k ∈ rec.map Prod.fst := hkeys ▸ hk
    obtain ⟨p, hp, hpe⟩ := List.mem_map.mp this
    exact ⟨p.2, by rw [← hpe]; exact hp⟩

/-- A demonstration input for the validator: one fully valid record,
one record with a null market_cap, one with a missing rank. -/
def demoValid : RawCoin :=
  [("id", some "bitcoin"), ("symbol", some "btc"), ("name", some "Bitcoin"),
   ("market_cap", some "1000"), ("market_cap_rank", some "1"),
   ("current_price", some "50000")]

def demoNullCap : RawCoin :=
  [("id", some "broken"), ("symbol", some "brk"), ("name", some "Broken"),
   ("market_cap", none), ("market_cap_rank", some "2"),
   ("current_price", some "1")]

def demoNoRank : RawCoin :=
  [("id", some "unranked"), ("symbol", some "unr"), ("name", some "Unranked"),
   ("market_cap", some "5"), ("current_price", some "2")]

theorem c2_no_partial_records_witness :
    ((∀ rec ∈ (processCoins [demoValid, demoNullCap, demoNoRank]).1,
        rec.map Prod.fst = required_keys) ∧
     (∀ rec ∈ (processCoins [demoValid, demoNullCap, demoNoRank]).1,
        ∀ k ∈ required_keys, ∃ v : JValue, (k, v) ∈ rec) ∧
     (processCoins [demoValid, demoNullCap, demoNoRank]).1.length +
       (processCoins [demoValid, demoNullCap, demoNoRank]).2.length = 3) ∧
    (processCoins [demoValid, demoNullCap, demoNoRank]).1 = [emitCoin demoValid] :=
  ⟨c2_no_partial_records [demoValid, demoNullCap, demoNoRank], by decide⟩

/-- Claim C6: a raw record whose market_cap_rank is absent or null is
skipped by the validator of src/app.py (lines 80-82) no matter what
its other fields hold: the output of the surrounding list is exactly
the output of the records around it, and a missing-rank skip reason is
recorded in its input position. -/
theorem c6_null_rank_always_skipped (l₁ l₂ : List RawCoin) (c : RawCoin)
    (h : rawGet c "market_cap_rank" = none) :
    (processCoins (l₁ ++ c :: l₂)).1 = (processCoins l₁).1 ++ (processCoins l₂).1 ∧
    (processCoins (l₁ ++ c :: l₂)).2 =
      (processCoins l₁).2 ++ SkipReason.missingRank c :: (processCoins l₂).2 := by
  have hnone : (rawGet c "market_cap_rank").isNone := by simp [h]
  rw [processCoins_append l₁ (c :: l₂)]
  simp [processCoins, hnone]

/-- A record with every field except market_cap_rank present and
valid: its rank alone causes the skip. -/
def demoNoRankValid : RawCoin :=
  [("id", some "full"), ("symbol", some "ful"), ("name", some "Full"),
   ("market_cap", some "7"), ("current_price", some "3")]

theorem c6_null_rank_always_skipped_witness :
    (processCoins ([demoValid] ++ demoNoRankValid :: [demoNullCap])).1 =
        (processCoins [demoValid]).1 ++ (processCoins [demoNullCap]).1 ∧
    (processCoins ([demoValid] ++ demoNoRankValid :: [demoNullCap])).2 =
        (processCoins [demoValid]).2 ++
          SkipReason.missingRank demoNoRankValid :: (processCoins [demoNullCap]).2 :=
  c6_null_rank_always_skipped [demoValid] [demoNullCap] demoNoRankValid rfl

theorem tryPage_succ {α : Type} (client : Nat → Nat → Resp α) (page attempt f : Nat) :
    tryPage client page attempt (f + 1) =
      match client page attempt with
      | Resp.ok d => (PageOutcome.data d, [(page, attempt)])
      | Resp.err =>
        match f with
        | 0 => (PageOutcome.failed, [(page, attempt)])
        | _ + 1 =>
          ((tryPage client page (attempt + 1) f).1,
            (page, attempt) :: (tryPage client page (attempt + 1) f).2) := rfl

theorem tryPage_always_err {α : Type} (client : Nat → Nat → Resp α) (page : Nat)
    (hcl : ∀ a, client page a = Resp.err) :
    ∀ fuel, 1 ≤ fuel → ∀ attempt,
      tryPage client page attempt fuel =
        (PageOutcome.failed, (List.range' attempt fuel).map (fun a => (page, a))) := by
  intro fuel
  induction fuel with
  | zero => intro h; omega
  | succ f ih =>
    intro _ attempt
    rw [tryPage_succ, hcl attempt]
    cases f with
    | zero => simp [List.range'_succ]
    | succ f' =>
      have h2 := ih (by omega) (attempt + 1)
      simp [h2, List.range'_succ]

theorem tryPage_err_then_ok {α : Type} (client : Nat → Nat → Resp α) (page : Nat)
    (d : List α) :
    ∀ fuel, 1 ≤ fuel → ∀ attempt,
      (∀ a, attempt ≤ a → a + 1 < attempt + fuel → client page a = Resp.err) →
      client page (attempt + fuel - 1) = Resp.ok d →
      tryPage client page attempt fuel =
        (PageOutcome.data d, (List.range' attempt fuel).map (fun a => (page, a))) := by
  intro fuel
  induction fuel with
  | zero => intro h; omega
  | succ f ih =>
    intro _ attempt herr hok
    cases f with
    | zero =>
      rw [show attempt + (0 + 1) - 1 = attempt from by omega] at hok
      rw [tryPage_succ, hok]
      simp [List.range'_succ]
    | succ f' =>
      have hea : client page attempt = Resp.err := herr attempt (le_refl _) (by omega)
      have ihh := ih (by omega) (attempt + 1)
        (fun a ha hb => herr a (by omega) (by omega))
        (by rw [show attempt + 1 + (f' + 1) - 1 = attempt + (f' + 1 + 1) - 1 from by omega]
            exact hok)
      rw [tryPage_succ, hea]
      simp [ihh, List.range'_succ]

/-- Claim C4: for any retries count r with 1 <= r, over the shared
fetch loop of src/app.py lines 39-65 and src/fetch_coingecko.py lines
23-39: if the page-1 request fails on the first r-1 attempts and
succeeds on attempt r-1, a one-page fetch returns that page's data
after exactly r logged attempts; if the page-1 request always fails, a
fetch of any positive page count makes exactly r attempts for page 1
and then fails as a whole (None in the app variant, a re-raised
exception in the batch variant), with no partial page-level data
returned. -/
theorem c4_retry_exhaustion (r p : Nat) (hr : 1 ≤ r) (hp : 1 ≤ p)
    (client : Nat → Nat → Resp RawCoin) (d : List RawCoin) :
    ((∀ a, a + 1 < r → client 1 a = Resp.err) → client 1 (r - 1) = Resp.ok d →
      fetch_pages client 1 r = (some d, (List.range r).map (fun a => (1, a)))) ∧
    ((∀ a, client 1 a = Resp.err) →
      fetch_pages client p r = (none, (List.range r).map (fun a => (1, a))) ∧
      fetch_market_data_app client p r = none ∧
      fetch_market_data_cg client p r = Except.error ()) := by
  constructor
  · intro herr hok
    have t := tryPage_err_then_ok client 1 d r hr 0
      (fun a _ hb => herr a (by omega))
      (by rw [show 0 + r - 1 = r - 1 from by omega]; exact hok)
    simp [fetch_pages, List.range'_succ, fetchPagesLoop, t, List.range_eq_range']
  · intro herr
    obtain ⟨p', rfl⟩ : ∃ p', p = p' + 1 := ⟨p - 1, by omega⟩
    have t := tryPage_always_err client 1 herr r hr 0
    have hfp : fetch_pages client (p' + 1) r =
        (none, (List.range r).map (fun a => (1, a))) := by
      simp [fetch_pages, List.range'_succ, fetchPagesLoop, t, List.range_eq_range']
    refine ⟨hfp, ?_, ?_⟩
    · simp [fetch_market_data_app, hfp]
    · simp [fetch_market_data_cg, hfp]

/-- A client that fails on the first attempt for every page and
succeeds on the second, and a client that always fails. -/
def flakyClient : Nat → Nat → Resp RawCoin :=
  fun _ attempt => if attempt = 0 then Resp.err else Resp.ok [demoValid]

def deadClient : Nat → Nat → Resp RawCoin := fun _ _ => Resp.err

theorem c4_retry_exhaustion_witness :
    (fetch_pages flakyClient 1 2 =
      (some [demoValid], (List.range 2).map (fun a => (1, a)))) ∧
    (fetch_pages deadClient 3 2 = (none, (List.range 2).map (fun a => (1, a))) ∧
      fetch_market_data_app deadClient 3 2 = none ∧
      fetch_market_data_cg deadClient 3 2 = Except.error ()) :=
  ⟨(c4_retry_exhaustion 2 3 (by omega) (by omega) flakyClient [demoValid]).1
      (fun a ha => by
        have : a = 0 := by omega
        rw [this]; rfl)
      rfl,
   (c4_retry_exhaustion 2 3 (by omega) (by omega) deadClient []).2 (fun _ => rfl)⟩

/-- Claim C9: whenever the batch variant src/fetch_coingecko.py
fetch_market_data returns successfully, its result is the fetched raw
list mapped through the six-key selection: one output record per raw
record (none dropped), each output record holding exactly the six
selected keys in order, and each key k bound to coin.get(k), which is
null when k is absent from the raw record. -/
theorem c9_batch_normalization_shape (client : Nat → Nat → Resp RawCoin)
    (pages retries : Nat) (out : List (List (String × Option JValue)))
    (h : fetch_market_data_cg client pages retries = Except.ok out) :
    ∃ all_coins log, fetch_pages client pages retries = (some all_coins, log) ∧
      out = all_coins.map selectCoin ∧
      out.length = all_coins.length ∧
      (∀ rec ∈ out, rec.map Prod.fst = selected_keys) ∧
      (∀ c ∈ all_coins, ∀ k ∈ selected_keys, (k, rawGet c k) ∈ selectCoin c) := by
  unfold fetch_market_data_cg at h
  rcases hfp : fetch_pages client pages retries with ⟨o, log⟩
  rw [hfp] at h
  cases o with
  | none => exact absurd h (by simp)
  | some all_coins =>
    refine ⟨all_coins, log, rfl, ?_, ?_, ?_, ?_⟩
    · simpa using h.symm
    · have : out = all_coins.map selectCoin := by simpa using h.symm
      simp [this]
    · intro rec hrec
      have hout : out = all_coins.map selectCoin := by simpa using h.symm
      rw [hout] at hrec
      obtain ⟨c, _, rfl⟩ := List.mem_map.mp hrec
      rfl
    · intro c _ k hk
      exact List.mem_map.mpr ⟨k, hk, rfl⟩

theorem c9_batch_normalization_shape_witness :
    ∃ all_coins log,
      fetch_pages (fun _ _ => Resp.ok [demoNoRank]) 1 1 = (some all_coins, log) ∧
      [selectCoin demoNoRank] = all_coins.map selectCoin ∧
      [selectCoin demoNoRank].length = all_coins.length ∧
      (∀ rec ∈ [selectCoin demoNoRank], rec.map Prod.fst = selected_keys) ∧
      (∀ c ∈ all_coins, ∀ k ∈ selected_keys, (k, rawGet c k) ∈ selectCoin c) :=
  c9_batch_normalization_shape (fun _ _ => Resp.ok [demoNoRank]) 1 1
    [selectCoin demoNoRank] rfl

/-- A second fully valid record, used on page 3 of the pagination
demonstration. -/
def demoValid2 : RawCoin :=
  [("id", some "ethereum"), ("symbol", some "eth"), ("name", some "Ethereum"),
   ("market_cap", some "500"), ("market_cap_rank", some "2"),
   ("current_price", some "3000")]

/-- A client whose page 1 holds one record, whose page 2 is an empty
array, and whose page 3 holds another record: the scenario of claim
C1 with total_pages = 3 and an empty page 2. -/
def c1client : Nat → Nat → Resp RawCoin := fun page _ =>
  if page = 1 then Resp.ok [demoValid]
  else if page = 2 then Resp.ok []
  else Resp.ok [demoValid2]

/-- Claim C1 fails on the code: after page 2 of a 3-page fetch returns
an empty array, the loop of src/app.py lines 37-65 (and likewise
src/fetch_coingecko.py lines 21-39) still issues the request (3, 0)
for page 3 and even includes page 3's data in the returned list,
because the Python break at src/app.py line 56 exits only the inner
retry while-loop while the outer for-loop continues - contradicting
the code's own comment at that line (Stop fetching if empty data
received) and the warning text at line 55 (Stopping fetch.).  The
empty page is indeed not treated as an error and earlier pages' data
is kept, but pagination does not stop. -/
theorem c1_empty_page_does_not_stop_pagination :
    fetch_pages c1client 3 3 =
      (some [demoValid, demoValid2], [(1, 0), (2, 0), (3, 0)]) ∧
    fetch_market_data_app c1client 3 3 =
      some [emitCoin demoValid, emitCoin demoValid2] := by
  exact ⟨by decide, by decide⟩

theorem sum_map_mul_const (m : List ℚ) (c : ℚ) :
    (m.map (fun x => x * c)).sum = m.sum * c := by
  induction m with
  | nil => simp
  | cons x xs ih => simp [ih, add_mul]

theorem weight_sum (l : List CleanCoin) (T : ℚ) (hT : T ≠ 0)
    (hsum : (l.map CleanCoin.market_cap).sum = T) :
    (l.map (weight_pct T)).sum = 100 := by
  have hfun : l.map (weight_pct T) =
      (l.map CleanCoin.market_cap).map (fun x => x * (100 / T)) := by
    rw [List.map_map]
    apply List.map_congr_left
    intro r _
    show weight_pct T r = r.market_cap * (100 / T)
    unfold weight_pct
    field_simp
  rw [hfun, sum_map_mul_const, hsum]
  field_simp

/-- Claim C3: whenever the truncated basket is non-empty and its total
market cap is strictly positive, the Calculate Allocation run of
src/app.py succeeds and the Weight (%) column of its output rows,
computed as (market_cap / total) * 100 per row (lines 239-240), sums
to exactly 100 under exact rational arithmetic. -/
theorem c3_weights_sum_to_100 (records : List CleanCoin) (excluded : List String)
    (top_n : Nat) (portfolio btcw altw : ℚ)
    (h1 : altcoin_basket records excluded top_n ≠ [])
    (h2 : 0 < total_basket_market_cap (altcoin_basket records excluded top_n)) :
    ∃ res, calculate records excluded top_n portfolio btcw altw = some res ∧
      (res.rows.map AllocationRow.weightPct).sum = 100 := by
  unfold calculate
  rw [if_neg h1, if_pos h2]
  refine ⟨_, rfl, ?_⟩
  rw [List.map_map]
  exact weight_sum (altcoin_basket records excluded top_n)
    (total_basket_market_cap (altcoin_basket records excluded top_n))
    (ne_of_gt h2) rfl

/-- Cleaned demonstration coins for the calculator claims. -/
def cleanBtc : CleanCoin :=
  { symbol := "BTC", name := "Bitcoin", market_cap := 1000,
    market_cap_rank := 1, current_price := 50000 }

def cleanEth : CleanCoin :=
  { symbol := "eth", name := "Ethereum", market_cap := 500,
    market_cap_rank := 2, current_price := 3000 }

def cleanUsdt : CleanCoin :=
  { symbol := "usdt", name := "Tether", market_cap := 80,
    market_cap_rank := 3, current_price := 1 }

theorem c3_weights_sum_to_100_witness :
    ∃ res, calculate [cleanEth, cleanBtc, cleanUsdt] ["usdt"] 2 100000 150 25 =
        some res ∧
      (res.rows.map AllocationRow.weightPct).sum = 100 := by
  have hb : altcoin_basket [cleanEth, cleanBtc, cleanUsdt] ["usdt"] 2 = [cleanEth] := by
    decide
  exact c3_weights_sum_to_100 [cleanEth, cleanBtc, cleanUsdt] ["usdt"] 2 100000 150 25
    (by rw [hb]; decide)
    (by rw [hb]; norm_num [total_basket_market_cap, cleanEth])

/-- Claim C7: the exclusion filter of src/app.py line 208 runs before
the truncation of line 222, so for every cleaned record list, excluded
set and top_n, no record whose lowercased symbol is in the excluded
set (to which btc is always added, line 204) ever reaches the basket -
unconditionally, whatever the candidate count - and, whenever at least
top_n records remain after filtering, the basket holds exactly top_n
records. -/
theorem c7_exclusion_before_truncation (records : List CleanCoin)
    (excluded : List String) (top_n : Nat) :
    (∀ r ∈ altcoin_basket records excluded top_n,
        lowerString r.symbol ∉ excludedWithBtc excluded) ∧
    "btc" ∈ excludedWithBtc excluded ∧
    (top_n ≤ (df_filtered records excluded).length →
      (altcoin_basket records excluded top_n).length = top_n) := by
  refine ⟨?_, by simp [excludedWithBtc], ?_⟩
  · intro r hr
    have hrf : r ∈ df_filtered records excluded := List.mem_of_mem_take hr
    have hp := List.of_mem_filter hrf
    simpa using hp
  · intro h
    simp [altcoin_basket, List.length_take]
    omega

theorem c7_exclusion_before_truncation_witness :
    (∀ r ∈ altcoin_basket [cleanEth, cleanBtc, cleanUsdt] ["usdt"] 1,
        lowerString r.symbol ∉ excludedWithBtc ["usdt"]) ∧
    "btc" ∈ excludedWithBtc ["usdt"] ∧
    (altcoin_basket [cleanEth, cleanBtc, cleanUsdt] ["usdt"] 1).length = 1 :=
  ⟨(c7_exclusion_before_truncation [cleanEth, cleanBtc, cleanUsdt] ["usdt"] 1).1,
   (c7_exclusion_before_truncation [cleanEth, cleanBtc, cleanUsdt] ["usdt"] 1).2.1,
   (c7_exclusion_before_truncation [cleanEth, cleanBtc, cleanUsdt] ["usdt"] 1).2.2
     (by decide)⟩

/-- Claim C8: the two scalar targets of src/app.py lines 230-231 are
target_btc_usd = portfolio * btc_weight / 100 and
target_basket_usd = portfolio * basket_weight / 100; they do not
depend on the record list, exclusions or top_n (two successful runs
differing only in those produce the same two targets), and the inputs
portfolio = 100000, btc_weight = 150, basket_weight = 25 yield targets
150000 and 25000. -/
theorem c8_targets_independent_of_basket (records records' : List CleanCoin)
    (excluded excluded' : List String) (tn tn' : Nat) (p bw aw : ℚ)
    (res res' : AllocationResult)
    (h : calculate records excluded tn p bw aw = some res)
    (h' : calculate records' excluded' tn' p bw aw = some res') :
    res.targetBtc = p * (bw / 100) ∧ res.targetBasket = p * (aw / 100) ∧
    res'.targetBtc = res.targetBtc ∧ res'.targetBasket = res.targetBasket ∧
    (p = 100000 → bw = 150 → aw = 25 →
      res.targetBtc = 150000 ∧ res.targetBasket = 25000) := by
  have extract : ∀ (rs : List CleanCoin) (ex : List String) (n : Nat)
      (r : AllocationResult), calculate rs ex n p bw aw = some r →
      r.targetBtc = p * (bw / 100) ∧ r.targetBasket = p * (aw / 100) := by
    intro rs ex n r hc
    unfold calculate at hc
    split_ifs at hc with hb htot
    · cases hc
      exact ⟨rfl, rfl⟩
  obtain ⟨e1, e2⟩ := extract records excluded tn res h
  obtain ⟨e1', e2'⟩ := extract records' excluded' tn' res' h'
  refine ⟨e1, e2, by rw [e1, e1'], by rw [e2, e2'], ?_⟩
  rintro rfl rfl rfl
  rw [e1, e2]
  norm_num

/-- The two concrete Calculate Allocation results used to witness C8:
runs over different record lists with the same scalar inputs. -/
def c8resA : AllocationResult :=
  { targetBtc := 150000, targetBasket := 25000,
    rows := [{ coin := cleanEth, weightPct := 100, targetUsd := 25000 }] }

def c8resB : AllocationResult :=
  { targetBtc := 150000, targetBasket := 25000,
    rows := [{ coin := cleanUsdt, weightPct := 100, targetUsd := 25000 }] }

theorem c8_targets_independent_of_basket_witness :
    c8resA.targetBtc = (100000 : ℚ) * (150 / 100) ∧
    c8resA.targetBasket = (100000 : ℚ) * (25 / 100) ∧
    c8resB.targetBtc = c8resA.targetBtc ∧
    c8resB.targetBasket = c8resA.targetBasket ∧
    ((100000 : ℚ) = 100000 → (150 : ℚ) = 150 → (25 : ℚ) = 25 →
      c8resA.targetBtc = 150000 ∧ c8resA.targetBasket = 25000) := by
  have hA : calculate [cleanEth] [] 1 100000 150 25 = some c8resA := by
    have hb : altcoin_basket [cleanEth] [] 1 = [cleanEth] := by decide
    unfold calculate
    rw [hb]
    rw [if_neg (by decide), if_pos (by norm_num [total_basket_market_cap, cleanEth])]
    norm_num [c8resA, weight_pct, total_basket_market_cap, cleanEth]
  have hB : calculate [cleanUsdt] [] 1 100000 150 25 = some c8resB := by
    have hb : altcoin_basket [cleanUsdt] [] 1 = [cleanUsdt] := by decide
    unfold calculate
    rw [hb]
    rw [if_neg (by decide), if_pos (by norm_num [total_basket_market_cap, cleanUsdt])]
    norm_num [c8resB, weight_pct, total_basket_market_cap, cleanUsdt]
  exact c8_targets_independent_of_basket [cleanEth] [cleanUsdt] [] [] 1 1
    100000 150 25 c8resA c8resB hA hB

theorem processTickers_mem (day : String) (ts : List Ticker) (row : Row)
    (h : row ∈ processTickers day ts) :
    row.rank ≤ 50 ∧ row.symbol ∉ EXCLUDE_STABLES := by
  induction ts with
  | nil => simp [processTickers] at h
  | cons t rest ih =>
    by_cases h1 : 50 < t.rank
    · simp [processTickers, h1] at h
    · by_cases h2 : t.symbol ∈ EXCLUDE_STABLES
      · rw [processTickers, if_neg h1, if_pos h2] at h
        exact ih h
      · rw [processTickers, if_neg h1, if_neg h2] at h
        rcases List.mem_cons.mp h with hr | hr
        · subst hr
          refine ⟨?_, ?_⟩
          · change t.rank ≤ 50
            omega
          · change t.symbol ∉ EXCLUDE_STABLES
            exact h2
        · exact ih hr

theorem processTickers_stops_at_first_high_rank (day : String)
    (l₂ : List Ticker) (t : Ticker) (ht : 50 < t.rank) :
    ∀ l₁, (∀ x ∈ l₁, x.rank ≤ 50) →
      processTickers day (l₁ ++ t :: l₂) = processTickers day l₁ := by
  intro l₁
  induction l₁ with
  | nil =>
    intro _
    simp [processTickers, ht]
  | cons x xs ih =>
    intro hle
    have hx : ¬ 50 < x.rank := by
      have := hle x (by simp)
      omega
    have hxs := ih (fun y hy => hle y (by simp [hy]))
    by_cases h2 : x.symbol ∈ EXCLUDE_STABLES
    · rw [List.cons_append, processTickers, if_neg hx, if_pos h2, hxs,
        processTickers, if_neg hx, if_pos h2]
    · rw [List.cons_append, processTickers, if_neg hx, if_neg h2, hxs,
        processTickers, if_neg hx, if_neg h2]

/-- Claim C10: every row the src/fetcher.py loop (lines 22-40) appends
has rank at most 50 and a symbol outside EXCLUDE_STABLES (exact,
case-sensitive comparison, line 30); and within one response the loop
breaks at the first item of rank above 50 (line 29), so the items
after it contribute nothing even when their own rank is at most 50. -/
theorem c10_fetcher_rows_invariant (days : List String)
    (resp : String → List Ticker) (day : String) (l₁ l₂ : List Ticker)
    (t : Ticker) (hl₁ : ∀ x ∈ l₁, x.rank ≤ 50) (ht : 50 < t.rank) :
    (∀ row ∈ allRows days resp, row.rank ≤ 50 ∧ row.symbol ∉ EXCLUDE_STABLES) ∧
    processTickers day (l₁ ++ t :: l₂) = processTickers day l₁ := by
  constructor
  · intro row hrow
    obtain ⟨d, _, hmem⟩ := List.mem_flatMap.mp hrow
    exact processTickers_mem d (resp d) row hmem
  · exact processTickers_stops_at_first_high_rank day l₂ t ht l₁ hl₁

/-- Demonstration tickers: two in-range items (one a stablecoin), the
first out-of-range item, and an in-range item after it that must not
be emitted. -/
def tickBtc : Ticker :=
  { rank := 1, symbol := "BTC", price := 50000, market_cap := 1000000 }

def tickUsdt : Ticker :=
  { rank := 4, symbol := "USDT", price := 1, market_cap := 80000 }

def tickHigh : Ticker :=
  { rank := 51, symbol := "AAA", price := 2, market_cap := 5 }

def tickLate : Ticker :=
  { rank := 10, symbol := "ETH", price := 3000, market_cap := 500000 }

theorem c10_fetcher_rows_invariant_witness :
    (∀ row ∈ allRows ["2025-09-29"]
        (fun _ => [tickBtc, tickUsdt, tickHigh, tickLate]),
      row.rank ≤ 50 ∧ row.symbol ∉ EXCLUDE_STABLES) ∧
    processTickers "2025-09-29" ([tickBtc, tickUsdt] ++ tickHigh :: [tickLate]) =
      processTickers "2025-09-29" [tickBtc, tickUsdt] :=
  c10_fetcher_rows_invariant ["2025-09-29"]
    (fun _ => [tickBtc, tickUsdt, tickHigh, tickLate]) "2025-09-29"
    [tickBtc, tickUsdt] [tickLate] tickHigh (by decide) (by decide)

end Rebalancer
